import Mathlib

/-!
Verification of the ecosens analysis core (`src/analysis.js`, the community
aggregation module and the microclimate HTTP boundary) against its
natural-language specification.

Shallow embedding conventions:
* JS numbers that only ever flow through order comparisons are modelled as `ℚ`;
  a possibly-absent / possibly-NaN JS number is `Option ℚ` (`none` stands for
  `undefined`/`null`/`NaN`, for which every `<`/`>` comparison is false).
* The forecaster uses `Math.exp`, so its scores are modelled in `ℝ` with
  `Real.exp`.
* The segmenter works on a binary mask `bin : ℕ → Bool` over a `w × h` grid in
  row-major index space (cell `i` is pixel `(i % w, i / w)`), exactly as the
  `Uint8Array` in the source.
* Fallible store accesses (`db.…all/get` inside `try`) are modelled as
  `Except String` values supplied by the caller.
-/

namespace EcoSens

/-! ## JS number comparisons (`Option ℚ` model) -/

/-- JS `c < x` where `x` may be `NaN`/`undefined` (`none`): false in that case. -/
def jgt (x : Option ℚ) (c : ℚ) : Bool :=
  match x with
  | none => false
  | some v => decide (c < v)

/-- JS `x < c` where `x` may be `NaN`/`undefined` (`none`): false in that case. -/
def jlt (x : Option ℚ) (c : ℚ) : Bool :=
  match x with
  | none => false
  | some v => decide (v < c)

/-! ## Heat stress scorer (`computeHeatStressLevel`, src/analysis.js lines 224-257)

The source accumulates `stressScore` through four independent if-chains and
clamps with `Math.min(stressScore, 100)`; the level is read off the clamped
score. -/

/-- Embedding of the `stressScore` accumulation and clamp of
`computeHeatStressLevel` from `src/analysis.js`. -/
def heatStressScore (airTemperature soilTemperature soilMoisture relativeHumidity :
    Option ℚ) : ℕ :=
  let s1 : ℕ :=
    if jgt airTemperature 35 then 50
    else if jgt airTemperature 32 then 35
    else if jgt airTemperature 30 then 20
    else if jgt airTemperature 25 then 10
    else 0
  let s2 : ℕ := s1 +
    (if jgt soilTemperature 30 then 25
     else if jgt soilTemperature 28 then 15
     else if jgt soilTemperature 26 then 10
     else if jgt soilTemperature 24 then 5
     else 0)
  let s3 : ℕ := s2 +
    (if jlt soilMoisture 20 then 15
     else if jlt soilMoisture 30 then 10
     else if jlt soilMoisture 40 then 5
     else 0)
  let s4 : ℕ := s3 +
    (if jlt relativeHumidity 30 then 10
     else if jlt relativeHumidity 50 then 5
     else 0)
  min s4 100

/-- Embedding of `computeHeatStressLevel` (`src/analysis.js`): the clamped
score converted to a stress level string. -/
def computeHeatStressLevel (airTemperature soilTemperature soilMoisture
    relativeHumidity : Option ℚ) : String :=
  let stressScore := heatStressScore airTemperature soilTemperature soilMoisture
    relativeHumidity
  if 70 ≤ stressScore then "critical"
  else if 50 ≤ stressScore then "high"
  else if 30 ≤ stressScore then "moderate"
  else if 15 ≤ stressScore then "low"
  else "minimal"

/-- Spec-side tier table for the air-temperature contribution
(10/20/35/50 points at >25/>30/>32/>35 degrees). -/
def specAirPoints (t : Option ℚ) : ℕ :=
  if jgt t 35 then 50 else if jgt t 32 then 35 else if jgt t 30 then 20
  else if jgt t 25 then 10 else 0

/-- Spec-side tier table for the soil-temperature contribution
(5/10/15/25 points at >24/>26/>28/>30 degrees). -/
def specSoilPoints (t : Option ℚ) : ℕ :=
  if jgt t 30 then 25 else if jgt t 28 then 15 else if jgt t 26 then 10
  else if jgt t 24 then 5 else 0

/-- Spec-side tier table for the soil-moisture contribution
(5/10/15 points at <40/<30/<20). -/
def specMoisturePoints (m : Option ℚ) : ℕ :=
  if jlt m 20 then 15 else if jlt m 30 then 10 else if jlt m 40 then 5 else 0

/-- Spec-side tier table for the humidity contribution (5/10 points at <50/<30). -/
def specHumidityPoints (r : Option ℚ) : ℕ :=
  if jlt r 30 then 10 else if jlt r 50 then 5 else 0

/-- Spec-side level thresholds on the clamped score:
70 critical / 50 high / 30 moderate / 15 low / else minimal. -/
def specStressLevelOf (score : ℕ) : String :=
  if 70 ≤ score then "critical"
  else if 50 ≤ score then "high"
  else if 30 ≤ score then "moderate"
  else if 15 ≤ score then "low"
  else "minimal"

/-! ## Pest amount classifier (`categorizePestAmount`, src/analysis.js lines 199-213) -/

/-- The ordered category ladder used by the escalation step in the source. -/
def pestOrder : List String := ["very low", "low", "moderate", "high", "very high"]

/-- Embedding of `categorizePestAmount` from `src/analysis.js`: bucket the
clamped count, then escalate one ladder step when `darkPixelRatio >= 0.15`. -/
def categorizePestAmount (estimatedCount : Option ℚ) (darkPixelRatio : ℚ) : String :=
  let count := max 0 (estimatedCount.getD 0)
  let category :=
    if count ≤ 2 then "very low"
    else if count ≤ 5 then "low"
    else if count ≤ 12 then "moderate"
    else if count ≤ 25 then "high"
    else "very high"
  if darkPixelRatio ≥ 0.15 then
    let idx := min (pestOrder.indexOf category + 1) (pestOrder.length - 1)
    pestOrder.getD idx category
  else category

/-- Spec-side bucketing of a (clamped) count by the fixed breakpoints. -/
def bucketOfCount (count : ℚ) : String :=
  if count ≤ 2 then "very low"
  else if count ≤ 5 then "low"
  else if count ≤ 12 then "moderate"
  else if count ≤ 25 then "high"
  else "very high"

/-- Spec-side single-step escalation, capped at "very high". -/
def escalateOne (category : String) : String :=
  if category = "very low" then "low"
  else if category = "low" then "moderate"
  else if category = "moderate" then "high"
  else "very high"

/-- Spec-side classifier following the claim text: clamp, bucket, then escalate
exactly one step iff the dark ratio is at least 0.15. -/
def specCategorize (estimatedCount : Option ℚ) (darkPixelRatio : ℚ) : String :=
  let count := max 0 (estimatedCount.getD 0)
  if darkPixelRatio ≥ 0.15 then escalateOne (bucketOfCount count)
  else bucketOfCount count

/-! ## Community trend aggregators (community-analysis module, src/unnamed/part_000)

Rows are the fields the algorithm consumes; the purely descriptive outputs
(`trendDescription`, `recentActivity`, the environmental averages) only feed
human-readable text and are not modelled. Store accesses are `Except` values:
the JS `try`/`catch` around the whole body is the final `match`. -/

/-- A community pest data row (`estimated_pest_count` may be null). -/
structure PestRow where
  estimated_pest_count : Option ℚ

/-- Result record of the community pest trend computation (modelled fields). -/
structure CommunityPestTrend where
  trend : String
  riskLevel : String
  participation : ℕ
  confidence : String
deriving DecidableEq

/-- Ordinal pest level 0-4 of one row: clamp `Number(x || 0)` at 0, then apply
the fixed breakpoints (src/unnamed/part_000 lines 23-30). -/
def pestOrdinal (estimated_pest_count : Option ℚ) : ℕ :=
  let count := max 0 (estimated_pest_count.getD 0)
  if count ≤ 2 then 0
  else if count ≤ 5 then 1
  else if count ≤ 12 then 2
  else if count ≤ 25 then 3
  else 4

/-- Unweighted mean ordinal pest level of a community data set. -/
def communityAvgPestLevel (communityData : List PestRow) : ℚ :=
  ((communityData.map fun row => (pestOrdinal row.estimated_pest_count : ℚ)).sum) /
    (communityData.length : ℚ)

/-- Body of `computeCommunityPestTrend` (src/unnamed/part_000 lines 5-98) inside
the `try`: any store failure aborts the body with the error. -/
def pestTrendBody (fetchData : Except String (List PestRow))
    (fetchUserCount : Except String ℕ) : Except String CommunityPestTrend :=
  fetchData.bind fun communityData =>
    if communityData.length = 0 then
      Except.ok ⟨"no_data", "low", 0, "low"⟩
    else
      let avgPestAmount := communityAvgPestLevel communityData
      let tr :=
        if avgPestAmount ≥ 3.5 then ("rising_significantly", "high")
        else if avgPestAmount ≥ 2.5 then ("rising_moderately", "moderate")
        else if avgPestAmount ≥ 1.5 then ("stable_moderate", "moderate")
        else ("stable_low", "low")
      fetchUserCount.bind fun userCount =>
        let confidence :=
          if tr.1 = "rising_significantly" then "high"
          else if tr.1 = "rising_moderately" then "medium"
          else if tr.1 = "stable_moderate" then "medium"
          else if tr.1 = "stable_low" then "high"
          else "medium"
        Except.ok ⟨tr.1, tr.2, userCount, confidence⟩

/-- Embedding of `computeCommunityPestTrend`: the `catch` converts any error
into the degraded result (src/unnamed/part_000 lines 99-109). -/
def computeCommunityPestTrend (fetchData : Except String (List PestRow))
    (fetchUserCount : Except String ℕ) : CommunityPestTrend :=
  match pestTrendBody fetchData fetchUserCount with
  | Except.ok r => r
  | Except.error _ => ⟨"error", "unknown", 0, "low"⟩

/-- A community microclimate row (only the field the trend algorithm buckets;
the temperature/humidity/moisture columns feed descriptive text only). -/
structure MicroRow where
  heat_stress_level : Option String

/-- Result record of the community heat stress trend computation. -/
structure CommunityHeatTrend where
  trend : String
  heatStressLevel : String
  participation : ℕ
  confidence : String
deriving DecidableEq

/-- Ordinal heat stress level of one row: lowercase the stored string and look
it up in the fixed table, defaulting to 0 (src/unnamed/part_000 lines 131-135). -/
def stressOrdinal (heat_stress_level : Option String) : ℕ :=
  let level := (heat_stress_level.getD "minimal").toLower
  if level = "minimal" then 0
  else if level = "low" then 1
  else if level = "moderate" then 2
  else if level = "high" then 3
  else if level = "critical" then 4
  else 0

/-- Unweighted mean ordinal heat stress level of a community data set. -/
def communityAvgStressLevel (communityData : List MicroRow) : ℚ :=
  ((communityData.map fun row => (stressOrdinal row.heat_stress_level : ℚ)).sum) /
    (communityData.length : ℚ)

/-- Body of `computeCommunityHeatStressTrend` (src/unnamed/part_000 lines
113-215) inside the `try`. -/
def heatTrendBody (fetchData : Except String (List MicroRow))
    (fetchUserCount : Except String ℕ) : Except String CommunityHeatTrend :=
  fetchData.bind fun communityData =>
    if communityData.length = 0 then
      Except.ok ⟨"no_data", "minimal", 0, "low"⟩
    else
      let avgStressLevel := communityAvgStressLevel communityData
      let tr :=
        if avgStressLevel ≥ 3.5 then ("critical_conditions", "critical")
        else if avgStressLevel ≥ 2.5 then ("elevated_conditions", "high")
        else if avgStressLevel ≥ 1.5 then ("moderate_conditions", "moderate")
        else if avgStressLevel ≥ 0.5 then ("mild_conditions", "low")
        else ("optimal_conditions", "minimal")
      fetchUserCount.bind fun userCount =>
        let confidence :=
          if tr.1 = "critical_conditions" then "high"
          else if tr.1 = "elevated_conditions" then "high"
          else if tr.1 = "moderate_conditions" then "medium"
          else if tr.1 = "mild_conditions" then "medium"
          else if tr.1 = "optimal_conditions" then "high"
          else "medium"
        Except.ok ⟨tr.1, tr.2, userCount, confidence⟩

/-- Embedding of `computeCommunityHeatStressTrend`: the `catch` converts any
error into the degraded result (src/unnamed/part_000 lines 216-226). -/
def computeCommunityHeatStressTrend (fetchData : Except String (List MicroRow))
    (fetchUserCount : Except String ℕ) : CommunityHeatTrend :=
  match heatTrendBody fetchData fetchUserCount with
  | Except.ok r => r
  | Except.error _ => ⟨"error", "unknown", 0, "low"⟩

/-! ## Individual risk forecaster (`computeForecastForArea`, src/analysis.js lines 111-197)

The store query (most-recent-first window of at most 20 readings) is supplied
as the input list. `Math.exp` forces the real-number model, so this section is
noncomputable. -/

/-- One pest reading row as consumed by the forecaster
(`estimated_pest_count` may be null). -/
structure PestReading where
  estimated_pest_count : Option ℝ

/-- Diagnostic-free projection of the forecaster result: score, level, and the
`details.reason` field (`some "no_data"` on the empty-history branch, `none`
otherwise; the remaining `details` entries are diagnostics-only strings). -/
structure ForecastResult where
  riskScore : ℝ
  riskLevel : String
  reason : Option String

/-- Embedding of `computeRiskLevel` (src/analysis.js lines 105-109). -/
noncomputable def computeRiskLevel (score : ℝ) : String :=
  if score ≥ 0.8 then "high"
  else if score ≥ 0.5 then "medium"
  else "low"

/-- Ordinal level 0-4 of a reading: clamp `Number(x || 0)` at 0, then apply the
fixed breakpoints (src/analysis.js lines 125-132). -/
noncomputable def pestLevel (row : PestReading) : ℕ :=
  let count := max 0 (row.estimated_pest_count.getD 0)
  if count ≤ 2 then 0
  else if count ≤ 5 then 1
  else if count ≤ 12 then 2
  else if count ≤ 25 then 3
  else 4

/-- Exponential recency weight `Math.exp(-index * 0.2)` of the i-th most recent
reading. -/
noncomputable def recencyWeight (i : ℕ) : ℝ :=
  Real.exp (-(i : ℝ) * 0.2)

/-- Total recency weight accumulated over a reading history
(`totalWeight` in the source reduce). -/
noncomputable def totalWeight (rows : List PestReading) : ℝ :=
  ((rows.enum).map fun p => recencyWeight p.1).sum

/-- Recency weight accumulated in the bucket of ordinal level `l`
(`levelCounts[l]` in the source reduce). -/
noncomputable def levelCount (rows : List PestReading) (l : ℕ) : ℝ :=
  ((rows.enum).map fun p => if pestLevel p.2 = l then recencyWeight p.1 else 0).sum

/-- Percentage share of level `l` in the weighted distribution
(`levelDistribution[l]`). -/
noncomputable def levelDistribution (rows : List PestReading) (l : ℕ) : ℝ :=
  levelCount rows l / totalWeight rows * 100

/-- Pre-correction weighted score `Σ (share[i]/100)·(i/4)`
(src/analysis.js lines 151-155). -/
noncomputable def weightedScore (rows : List PestReading) : ℝ :=
  ∑ i ∈ Finset.range 5, (levelDistribution rows i / 100) * ((i : ℝ) / 4)

/-- The levels of the most recent `min(5, n)` readings
(src/analysis.js line 172). -/
noncomputable def recentLevels (rows : List PestReading) : List ℕ :=
  (rows.take (min 5 rows.length)).map pestLevel

/-- Embedding of `computeForecastForArea` (src/analysis.js lines 111-197) on an
already-fetched most-recent-first reading window. -/
noncomputable def computeForecastForArea (rows : List PestReading) : ForecastResult :=
  if rows.length = 0 then
    ⟨0.1, computeRiskLevel 0.1, some "no_data"⟩
  else
    let lowRiskImages := levelDistribution rows 0 + levelDistribution rows 1
    let highRiskImages := levelDistribution rows 3 + levelDistribution rows 4
    let score1 :=
      if lowRiskImages > 60 then weightedScore rows * 0.5
      else if highRiskImages > 40 then weightedScore rows * 1.3
      else weightedScore rows
    let recentPestLevels := recentLevels rows
    let recentLowCount := (recentPestLevels.filter fun l => decide (l ≤ 1)).length
    let score2 :=
      if 0 < recentPestLevels.length ∧
          (recentLowCount : ℝ) ≥ (recentPestLevels.length : ℝ) * 0.8 then
        score1 * 0.4
      else score1
    let score := max 0 (min 1 score2)
    ⟨score, computeRiskLevel score, none⟩

/-- Spec-side step-1 corrective multiplier: 0.5 on a >60% low-majority, else
1.3 on a >40% high-majority, else 1. -/
noncomputable def majorityFactor (rows : List PestReading) : ℝ :=
  if levelDistribution rows 0 + levelDistribution rows 1 > 60 then 0.5
  else if levelDistribution rows 3 + levelDistribution rows 4 > 40 then 1.3
  else 1

/-- Spec-side step-2 corrective multiplier: 0.4 when at least 80% of the most
recent `min(5, n)` readings have ordinal level at most 1, else 1. -/
noncomputable def recentCalmFactor (rows : List PestReading) : ℝ :=
  if 0 < (recentLevels rows).length ∧
      ((((recentLevels rows).filter fun l => decide (l ≤ 1)).length : ℝ) ≥
        ((recentLevels rows).length : ℝ) * 0.8) then 0.4
  else 1

/-- Spec-side final score: weighted score times the two stacked multipliers,
clamped to `[0, 1]`. -/
noncomputable def forecastSpecScore (rows : List PestReading) : ℝ :=
  max 0 (min 1 (weightedScore rows * majorityFactor rows * recentCalmFactor rows))

/-- A reading with `estimated_pest_count = 100`. -/
def reading100 : PestReading := ⟨some 100⟩

/-- The spec example history: 20 readings, every count 100. -/
def rows100 : List PestReading := List.replicate 20 reading100

/-! ## Image segmenter (`analyzeStickyTrapImage`, src/analysis.js lines 44-93)

Connected-component labeling over the binary mask: raster scan with an
explicit-stack flood fill over the 4-neighborhood. The JS `while (stack.length)`
loop is modelled with a fuel parameter; `5 * (w * h) + 1` fuel is provably
enough because every push marks a fresh cell visited. -/

/-- The 4-neighborhood of cell `cur` in a `w × h` row-major grid exactly as the
source guards it: up (`cy > 0`), down (`cy < h - 1`), left (`cx > 0`),
right (`cx < w - 1`). -/
def nbrs (w h cur : ℕ) : List ℕ :=
  let cx := cur % w
  let cy := cur / w
  (if 0 < cy then [cur - w] else []) ++
    ((if cy < h - 1 then [cur + w] else []) ++
      ((if 0 < cx then [cur - 1] else []) ++
        (if cx < w - 1 then [cur + 1] else [])))

/-- One flood fill: pop `cur`, count it, push the dark unvisited neighbors
(marking them visited as they are pushed). Returns the visited set and the
component size counted by pops. -/
def floodAux (bin : ℕ → Bool) (w h : ℕ) :
    ℕ → List ℕ → Finset ℕ → ℕ → Finset ℕ × ℕ
  | 0, _, vis, size => (vis, size)
  | _ + 1, [], vis, size => (vis, size)
  | fuel + 1, cur :: stack, vis, size =>
    let ns := (nbrs w h cur).filter fun n => bin n && !(decide (n ∈ vis))
    floodAux bin w h fuel (ns.reverse ++ stack) (vis ∪ ns.toFinset) (size + 1)

/-- The scan loop of the labeler: walk the cells in `order`; at each dark
unvisited cell run a flood fill, and record the component size when it reaches
the minimum blob size 10. -/
def scanLoop (bin : ℕ → Bool) (w h : ℕ) :
    List ℕ → Finset ℕ → List ℕ → List ℕ
  | [], _, comps => comps
  | i :: rest, visited, comps =>
    if bin i = true ∧ i ∉ visited then
      let r := floodAux bin w h (5 * (w * h) + 1) [i] (insert i visited) 0
      scanLoop bin w h rest r.1 (if 10 ≤ r.2 then comps ++ [r.2] else comps)
    else
      scanLoop bin w h rest visited comps

/-- The raster scan order of the source: `y` from 0 to `h-1`, `x` from 0 to
`w-1`, cell index `y * w + x`. -/
def rasterOrder (w h : ℕ) : List ℕ :=
  (List.range h).flatMap fun y => (List.range w).map fun x => y * w + x

/-- Accepted component sizes produced by the scan loop over `order` starting
from an all-clear visited set (the `components` array of the source). -/
def segmentComponents (bin : ℕ → Bool) (w h : ℕ) (order : List ℕ) : List ℕ :=
  scanLoop bin w h order ∅ []

/-- `analysis.blobCount` of the source: number of accepted components of the
raster scan. -/
def blobCount (bin : ℕ → Bool) (w h : ℕ) : ℕ :=
  (segmentComponents bin w h (rasterOrder w h)).length

/-- `analysis.blobSizes` of the source: the accepted component sizes truncated
to the first 50 (`components.slice(0, 50)`). -/
def blobSizes (bin : ℕ → Bool) (w h : ℕ) : List ℕ :=
  (segmentComponents bin w h (rasterOrder w h)).take 50

/-! ### Independent reference: components as saturation of the dark-adjacency
relation, with no scan order at all. -/

/-- One dark step of the mask: `y` is a 4-neighbor of `x` and `y` is dark. -/
abbrev DStep (bin : ℕ → Bool) (w h : ℕ) (x y : ℕ) : Prop :=
  y ∈ nbrs w h x ∧ bin y = true

/-- Reachability through dark cells: reflexive-transitive closure of `DStep`. -/
abbrev Reach (bin : ℕ → Bool) (w h : ℕ) : ℕ → ℕ → Prop :=
  Relation.ReflTransGen (DStep bin w h)

/-- The dark cells of the mask. -/
def darkCells (bin : ℕ → Bool) (w h : ℕ) : Finset ℕ :=
  (Finset.range (w * h)).filter fun i => bin i = true

/-- One parallel expansion step of the reference flood fill: add every dark
in-range cell adjacent to the current set. Order-free by construction. -/
def expandStep (bin : ℕ → Bool) (w h : ℕ) (S : Finset ℕ) : Finset ℕ :=
  S ∪ (darkCells bin w h).filter fun n => ∃ x ∈ S, n ∈ nbrs w h x

/-- Reference flood fill from seed `i`: saturate the expansion (at most
`w * h` rounds are ever needed). -/
def reachSet (bin : ℕ → Bool) (w h : ℕ) (i : ℕ) : Finset ℕ :=
  (expandStep bin w h)^[w * h] {i}

/-- The maximal 4-connected components of dark cells, independently of any
scan order: the set of reference flood fills of all dark cells. -/
def refComponents (bin : ℕ → Bool) (w h : ℕ) : Finset (Finset ℕ) :=
  (darkCells bin w h).image (reachSet bin w h)

/-- Reference blob count: components of pixel size at least 10. -/
def refBlobCount (bin : ℕ → Bool) (w h : ℕ) : ℕ :=
  ((refComponents bin w h).filter fun c => 10 ≤ c.card).card

/-- The multiset of accepted component sizes of the mask (no order involved). -/
def acceptedSizes (bin : ℕ → Bool) (w h : ℕ) : Multiset ℕ :=
  ((refComponents bin w h).filter fun c => 10 ≤ c.card).val.map Finset.card

/-! ## Theorems: heat stress scorer -/

/-- C5: for all four real-valued microclimate inputs, `scoreHeatStress` equals
the additive tier table (air 10/20/35/50 at >25/>30/>32/>35, soil 5/10/15/25 at
>24/>26/>28/>30, moisture 5/10/15 at <40/<30/<20, humidity 5/10 at <50/<30),
with the sum clamped to `[0, 100]` and the level read off the clamped sum by
the 70/50/30/15 thresholds. -/
theorem C5_heat_scorer_table (a s m h : ℚ) :
    heatStressScore (some a) (some s) (some m) (some h) =
      min (specAirPoints (some a) + specSoilPoints (some s) +
        specMoisturePoints (some m) + specHumidityPoints (some h)) 100 ∧
    heatStressScore (some a) (some s) (some m) (some h) ≤ 100 ∧
    computeHeatStressLevel (some a) (some s) (some m) (some h) =
      specStressLevelOf (heatStressScore (some a) (some s) (some m) (some h)) :=
  ⟨rfl, min_le_right _ _, rfl⟩

/-- C6 counterexample: at inputs (36, 31, 15, 20) the additive point sum is
100 (soil 31 lands in the >30 tier worth 25 points), not 90 as the claim
computes, though the level is still "critical". -/
theorem C6_heat_example_counterexample :
    heatStressScore (some 36) (some 31) (some 15) (some 20) = 100 ∧
    heatStressScore (some 36) (some 31) (some 15) (some 20) ≠ 90 ∧
    computeHeatStressLevel (some 36) (some 31) (some 15) (some 20) = "critical" := by
  refine ⟨?_, ?_, ?_⟩ <;>
    norm_num [heatStressScore, computeHeatStressLevel, jgt, jlt]

/-- C6 amended: `scoreHeatStress(36, 31, 15, 20)` produces the additive point
sum 50+25+15+10 = 100 and level "critical", and `scoreHeatStress(20, 20, 50, 60)`
produces sum 0 and level "minimal". -/
theorem C6_heat_example_amended :
    heatStressScore (some 36) (some 31) (some 15) (some 20) = 100 ∧
    computeHeatStressLevel (some 36) (some 31) (some 15) (some 20) = "critical" ∧
    heatStressScore (some 20) (some 20) (some 50) (some 60) = 0 ∧
    computeHeatStressLevel (some 20) (some 20) (some 50) (some 60) = "minimal" := by
  refine ⟨?_, ?_, ?_, ?_⟩ <;>
    norm_num [heatStressScore, computeHeatStressLevel, jgt, jlt]

/-- C10: the heat stress scorer is total over arbitrary (`Option ℚ`, with
`none` = NaN/undefined/missing) inputs: every comparison against a missing
value is false, a missing input contributes 0 points to the additive table,
and with all four inputs missing the scorer still returns level "minimal". -/
theorem C10_heat_scorer_total (a s m h : Option ℚ) :
    heatStressScore a s m h =
      min (specAirPoints a + specSoilPoints s + specMoisturePoints m +
        specHumidityPoints h) 100 ∧
    (∀ c : ℚ, jgt none c = false ∧ jlt none c = false) ∧
    specAirPoints none = 0 ∧ specSoilPoints none = 0 ∧
    specMoisturePoints none = 0 ∧ specHumidityPoints none = 0 ∧
    computeHeatStressLevel none none none none = "minimal" :=
  ⟨rfl, fun _ => ⟨rfl, rfl⟩, rfl, rfl, rfl, rfl, rfl⟩

/-! ## Theorems: pest amount classifier -/

/-- The ladder-walk `order[min(order.indexOf(category) + 1, order.length - 1)]`
of the source equals the one-step escalation for every ladder category. -/
theorem escalate_via_indexOf (category : String) (hcat : category ∈ pestOrder) :
    pestOrder.getD (min (pestOrder.indexOf category + 1) (pestOrder.length - 1))
      category = escalateOne category := by
  fin_cases hcat <;> rfl

/-- C2: `classify(count, darkPixelRatio)` clamps negative/missing counts to 0,
buckets by the breakpoints 2/5/12/25, and escalates exactly one step (capped at
"very high") iff the dark ratio is at least 0.15; with the four spec examples. -/
theorem C2_classifier (estimatedCount : Option ℚ) (darkPixelRatio : ℚ) :
    categorizePestAmount estimatedCount darkPixelRatio =
      specCategorize estimatedCount darkPixelRatio ∧
    categorizePestAmount (some 0) 0 = "very low" ∧
    categorizePestAmount (some 3) 0 = "low" ∧
    categorizePestAmount (some 6) 0.16 = "high" ∧
    categorizePestAmount (some 100) 0.5 = "very high" := by
  refine ⟨?_, ?_, ?_, ?_, ?_⟩
  · unfold categorizePestAmount specCategorize
    have hmem : bucketOfCount (max 0 (estimatedCount.getD 0)) ∈ pestOrder := by
      unfold bucketOfCount pestOrder
      split_ifs <;> simp
    have hb : (if max 0 (estimatedCount.getD 0) ≤ 2 then "very low"
        else if max 0 (estimatedCount.getD 0) ≤ 5 then "low"
        else if max 0 (estimatedCount.getD 0) ≤ 12 then "moderate"
        else if max 0 (estimatedCount.getD 0) ≤ 25 then "high"
        else "very high") = bucketOfCount (max 0 (estimatedCount.getD 0)) := rfl
    simp only [hb]
    by_cases hr : darkPixelRatio ≥ 0.15
    · simp only [if_pos hr, escalate_via_indexOf _ hmem]
    · simp only [if_neg hr]
  all_goals norm_num [categorizePestAmount, pestOrder] <;> decide

/-! ## Theorems: community trend aggregators -/

/-- C9: on an empty community data set both aggregators return the fixed
"no_data" result (level "low" for pest, "minimal" for heat, confidence "low",
participation 0) instead of failing. -/
theorem C9_community_empty (pc hc : Except String ℕ) :
    computeCommunityPestTrend (Except.ok []) pc = ⟨"no_data", "low", 0, "low"⟩ ∧
    computeCommunityHeatStressTrend (Except.ok []) hc =
      ⟨"no_data", "minimal", 0, "low"⟩ :=
  ⟨rfl, rfl⟩

/-- C8: a store error never propagates out of either aggregator: whether the
data fetch or the participant-count fetch fails, the call returns the degraded
result with trend "error", level "unknown" and confidence "low". -/
theorem C8_community_error_degraded (e : String) (pc hc : Except String ℕ) :
    computeCommunityPestTrend (Except.error e) pc =
      ⟨"error", "unknown", 0, "low"⟩ ∧
    computeCommunityPestTrend (Except.ok [⟨some 6⟩]) (Except.error e) =
      ⟨"error", "unknown", 0, "low"⟩ ∧
    computeCommunityHeatStressTrend (Except.error e) hc =
      ⟨"error", "unknown", 0, "low"⟩ ∧
    computeCommunityHeatStressTrend (Except.ok [⟨some "high"⟩]) (Except.error e) =
      ⟨"error", "unknown", 0, "low"⟩ :=
  ⟨rfl, rfl, rfl, rfl⟩

/-- C7 counterexample: on a one-row data set with count 6 the mean ordinal is
2, the trend is "stable_moderate", and the code's confidence is "medium" — not
"high" as the claimed fixed lookup (high, medium, high, high) states. -/
theorem C7_community_confidence_counterexample :
    (computeCommunityPestTrend (Except.ok [⟨some 6⟩]) (Except.ok 1)).trend =
      "stable_moderate" ∧
    (computeCommunityPestTrend (Except.ok [⟨some 6⟩]) (Except.ok 1)).confidence =
      "medium" ∧
    (computeCommunityPestTrend (Except.ok [⟨some 6⟩]) (Except.ok 1)).confidence ≠
      "high" := by
  refine ⟨?_, ?_, ?_⟩ <;>
    norm_num [computeCommunityPestTrend, pestTrendBody, Except.bind,
      communityAvgPestLevel, pestOrdinal] <;> decide

/-- C7 amended: for every non-empty community pest data set the trend label and
risk level come from the unweighted mean ordinal by the thresholds 3.5/2.5/1.5,
and the confidence is the fixed lookup high, medium, medium, high (in trend
order rising_significantly, rising_moderately, stable_moderate, stable_low);
participation is the separately fetched user count. -/
theorem C7_community_trend_amended (communityData : List PestRow) (userCount : ℕ)
    (hne : communityData ≠ []) :
    (computeCommunityPestTrend (Except.ok communityData)
        (Except.ok userCount)).trend =
      (if communityAvgPestLevel communityData ≥ 3.5 then "rising_significantly"
       else if communityAvgPestLevel communityData ≥ 2.5 then "rising_moderately"
       else if communityAvgPestLevel communityData ≥ 1.5 then "stable_moderate"
       else "stable_low") ∧
    (computeCommunityPestTrend (Except.ok communityData)
        (Except.ok userCount)).riskLevel =
      (if communityAvgPestLevel communityData ≥ 3.5 then "high"
       else if communityAvgPestLevel communityData ≥ 2.5 then "moderate"
       else if communityAvgPestLevel communityData ≥ 1.5 then "moderate"
       else "low") ∧
    (computeCommunityPestTrend (Except.ok communityData)
        (Except.ok userCount)).confidence =
      (if communityAvgPestLevel communityData ≥ 3.5 then "high"
       else if communityAvgPestLevel communityData ≥ 2.5 then "medium"
       else if communityAvgPestLevel communityData ≥ 1.5 then "medium"
       else "high") ∧
    (computeCommunityPestTrend (Except.ok communityData)
        (Except.ok userCount)).participation = userCount := by
  have hlen : ¬ (communityData.length = 0) := fun hz =>
    hne (List.length_eq_zero.mp hz)
  unfold computeCommunityPestTrend pestTrendBody
  simp only [Except.bind, if_neg hlen]
  split_ifs <;> simp_all

/-! ## Theorems: individual risk forecaster -/

theorem recencyWeight_pos (i : ℕ) : 0 < recencyWeight i := by
  unfold recencyWeight
  exact Real.exp_pos _

theorem sum_recency_nonneg (n : ℕ) (rows : List PestReading) :
    0 ≤ ((List.enumFrom n rows).map fun p => recencyWeight p.1).sum := by
  apply List.sum_nonneg
  intro x hx
  obtain ⟨p, hp, rfl⟩ := List.mem_map.1 hx
  exact (recencyWeight_pos _).le

theorem sum_recency_pos (n : ℕ) (rows : List PestReading) (hne : rows ≠ []) :
    0 < ((List.enumFrom n rows).map fun p => recencyWeight p.1).sum := by
  cases rows with
  | nil => exact absurd rfl hne
  | cons r rs =>
    simp only [List.enumFrom_cons, List.map_cons, List.sum_cons]
    have h1 := recencyWeight_pos n
    have h2 := sum_recency_nonneg (n + 1) rs
    linarith

theorem totalWeight_pos (rows : List PestReading) (hne : rows ≠ []) :
    0 < totalWeight rows := by
  unfold totalWeight
  exact sum_recency_pos 0 rows hne

theorem levelCountFrom_const (L l : ℕ) :
    ∀ (rows : List PestReading) (n : ℕ), (∀ r ∈ rows, pestLevel r = L) →
      ((List.enumFrom n rows).map fun p =>
          if pestLevel p.2 = l then recencyWeight p.1 else 0).sum =
        if l = L then ((List.enumFrom n rows).map fun p => recencyWeight p.1).sum
        else 0 := by
  intro rows
  induction rows with
  | nil =>
    intro n _
    simp
  | cons r rs ih =>
    intro n hL
    simp only [List.enumFrom_cons, List.map_cons, List.sum_cons]
    rw [hL r (List.mem_cons_self r rs),
      ih (n + 1) fun x hx => hL x (List.mem_cons_of_mem r hx)]
    by_cases hl : l = L
    · simp [hl]
    · simp [hl, Ne.symm hl]

theorem levelCount_const (L : ℕ) (rows : List PestReading)
    (hL : ∀ r ∈ rows, pestLevel r = L) (l : ℕ) :
    levelCount rows l = if l = L then totalWeight rows else 0 := by
  unfold levelCount totalWeight
  exact levelCountFrom_const L l rows 0 hL

theorem pestLevel_reading100 : pestLevel reading100 = 4 := by
  have hmax : (max (0 : ℝ) 100) = 100 := max_eq_right (by norm_num)
  simp only [pestLevel, reading100, Option.getD_some, hmax]
  norm_num

theorem rows100_levels : ∀ r ∈ rows100, pestLevel r = 4 := by
  intro r hr
  unfold rows100 at hr
  rw [List.eq_of_mem_replicate hr]
  exact pestLevel_reading100

theorem rows100_ne_nil : rows100 ≠ [] := by
  unfold rows100
  exact List.ne_nil_of_length_pos (by simp)

theorem dist100 (l : ℕ) : levelDistribution rows100 l = if l = 4 then 100 else 0 := by
  unfold levelDistribution
  rw [levelCount_const 4 rows100 rows100_levels l]
  by_cases hl : l = 4
  · rw [if_pos hl, if_pos hl,
      div_self (ne_of_gt (totalWeight_pos rows100 rows100_ne_nil))]
    norm_num
  · rw [if_neg hl, if_neg hl]
    simp

theorem weightedScore100 : weightedScore rows100 = 1 := by
  unfold weightedScore
  rw [Finset.sum_range_succ, Finset.sum_range_succ, Finset.sum_range_succ,
    Finset.sum_range_succ, Finset.sum_range_one]
  rw [dist100 0, dist100 1, dist100 2, dist100 3, dist100 4]
  norm_num

theorem majorityFactor100 : majorityFactor rows100 = 1.3 := by
  unfold majorityFactor
  rw [dist100 0, dist100 1, dist100 3, dist100 4]
  norm_num

theorem recentLevels100 : recentLevels rows100 = List.replicate 5 4 := by
  unfold recentLevels rows100
  simp [List.take_replicate, List.map_replicate, pestLevel_reading100]

theorem recentCalmFactor100 : recentCalmFactor rows100 = 1 := by
  unfold recentCalmFactor
  rw [recentLevels100]
  norm_num [List.replicate]

theorem forecast_riskLevel_eq (rows : List PestReading) :
    (computeForecastForArea rows).riskLevel =
      computeRiskLevel ((computeForecastForArea rows).riskScore) := by
  unfold computeForecastForArea
  split <;> rfl

theorem forecast_riskScore_eq (rows : List PestReading) (hne : rows ≠ []) :
    (computeForecastForArea rows).riskScore = forecastSpecScore rows := by
  have hlen : ¬ (rows.length = 0) := fun hz => hne (List.length_eq_zero.mp hz)
  unfold computeForecastForArea forecastSpecScore majorityFactor recentCalmFactor
  rw [if_neg hlen]
  dsimp only
  split_ifs <;> first | rfl | simp only [mul_one]

/-- C3: for every non-empty reading history the forecaster score is the
pre-correction weighted score times the majority multiplier (0.5 on a >60%
low share, else 1.3 on a >40% high share) times the independent, multiplicative
recent-calm multiplier (0.4 when at least 80% of the most recent min(5, n)
readings have level at most 1), clamped to [0, 1]; the level is read off by the
0.8/0.5 thresholds. In particular 20 readings of count 100 give pre-correction
weighted score 1, the 1.3 amplification, clamped score 1, and level "high". -/
theorem C3_forecaster (rows : List PestReading) (hne : rows ≠ []) :
    (computeForecastForArea rows).riskScore = forecastSpecScore rows ∧
    (computeForecastForArea rows).riskLevel =
      (if forecastSpecScore rows ≥ 0.8 then "high"
       else if forecastSpecScore rows ≥ 0.5 then "medium"
       else "low") ∧
    weightedScore rows100 = 1 ∧
    majorityFactor rows100 = 1.3 ∧
    recentCalmFactor rows100 = 1 ∧
    (computeForecastForArea rows100).riskScore = 1 ∧
    (computeForecastForArea rows100).riskLevel = "high" := by
  have hs1 : forecastSpecScore rows100 = 1 := by
    unfold forecastSpecScore
    rw [weightedScore100, majorityFactor100, recentCalmFactor100]
    have h13 : (1 : ℝ) * 1.3 * 1 = 1.3 := by norm_num
    rw [h13, min_eq_left (by norm_num : (1 : ℝ) ≤ 1.3),
      max_eq_right (by norm_num : (0 : ℝ) ≤ 1)]
  refine ⟨forecast_riskScore_eq rows hne, ?_, weightedScore100, majorityFactor100,
    recentCalmFactor100, ?_, ?_⟩
  · rw [forecast_riskLevel_eq rows, forecast_riskScore_eq rows hne]
    rfl
  · rw [forecast_riskScore_eq rows100 rows100_ne_nil, hs1]
  · rw [forecast_riskLevel_eq rows100, forecast_riskScore_eq rows100 rows100_ne_nil,
      hs1]
    unfold computeRiskLevel
    rw [if_pos (by norm_num : (1 : ℝ) ≥ 0.8)]

/-- Witness for C3 at the concrete 20-reading history with every count 100. -/
theorem C3_forecaster_witness :
    (rows100 ≠ []) ∧
    ((computeForecastForArea rows100).riskScore = forecastSpecScore rows100 ∧
     (computeForecastForArea rows100).riskLevel =
       (if forecastSpecScore rows100 ≥ 0.8 then "high"
        else if forecastSpecScore rows100 ≥ 0.5 then "medium"
        else "low") ∧
     weightedScore rows100 = 1 ∧
     majorityFactor rows100 = 1.3 ∧
     recentCalmFactor rows100 = 1 ∧
     (computeForecastForArea rows100).riskScore = 1 ∧
     (computeForecastForArea rows100).riskLevel = "high") :=
  ⟨rows100_ne_nil, C3_forecaster rows100 rows100_ne_nil⟩

/-- C4: an empty reading history returns exactly riskScore 0.1, riskLevel
"low" and details reason "no_data" instead of failing. -/
theorem C4_forecaster_empty :
    (computeForecastForArea []).riskScore = 0.1 ∧
    (computeForecastForArea []).riskLevel = "low" ∧
    (computeForecastForArea []).reason = some "no_data" := by
  refine ⟨rfl, ?_, rfl⟩
  show computeRiskLevel 0.1 = "low"
  unfold computeRiskLevel
  rw [if_neg (by norm_num), if_neg (by norm_num)]

/-- Witness for C7 amended at the concrete one-row data set with count 0. -/
theorem C7_community_trend_amended_witness :
    (([⟨some 0⟩] : List PestRow) ≠ []) ∧
    ((computeCommunityPestTrend (Except.ok [⟨some 0⟩]) (Except.ok 3)).trend =
      (if communityAvgPestLevel [⟨some 0⟩] ≥ 3.5 then "rising_significantly"
       else if communityAvgPestLevel [⟨some 0⟩] ≥ 2.5 then "rising_moderately"
       else if communityAvgPestLevel [⟨some 0⟩] ≥ 1.5 then "stable_moderate"
       else "stable_low") ∧
    (computeCommunityPestTrend (Except.ok [⟨some 0⟩]) (Except.ok 3)).riskLevel =
      (if communityAvgPestLevel [⟨some 0⟩] ≥ 3.5 then "high"
       else if communityAvgPestLevel [⟨some 0⟩] ≥ 2.5 then "moderate"
       else if communityAvgPestLevel [⟨some 0⟩] ≥ 1.5 then "moderate"
       else "low") ∧
    (computeCommunityPestTrend (Except.ok [⟨some 0⟩]) (Except.ok 3)).confidence =
      (if communityAvgPestLevel [⟨some 0⟩] ≥ 3.5 then "high"
       else if communityAvgPestLevel [⟨some 0⟩] ≥ 2.5 then "medium"
       else if communityAvgPestLevel [⟨some 0⟩] ≥ 1.5 then "medium"
       else "high") ∧
    (computeCommunityPestTrend (Except.ok [⟨some 0⟩]) (Except.ok 3)).participation
      = 3) :=
  ⟨List.cons_ne_nil _ _,
    C7_community_trend_amended [⟨some 0⟩] 3 (List.cons_ne_nil _ _)⟩

/-! ## Theorems: image segmenter

Grid arithmetic for the 4-neighborhood. `omega` treats `cur / w` and
`cur % w` as opaque atoms, so the division/modulus bridging facts are supplied
explicitly. -/

theorem div_pos_facts {c w : ℕ} (h : 0 < c / w) : 0 < w ∧ w ≤ c := by
  rcases Nat.eq_zero_or_pos w with hw | hw
  · subst hw
    simp [Nat.div_zero] at h
  · refine ⟨hw, ?_⟩
    by_contra hlt
    push_neg at hlt
    rw [Nat.div_eq_of_lt hlt] at h
    exact lt_irrefl 0 h

theorem mod_pos_facts {c w : ℕ} (h : 0 < c % w) : 0 < c ∧ w ≠ 1 := by
  constructor
  · rcases Nat.eq_zero_or_pos c with hc | hc
    · subst hc
      simp [Nat.zero_mod] at h
    · exact hc
  · intro hw
    subst hw
    simp [Nat.mod_one] at h

theorem decomp_div {w q r : ℕ} (hw : 0 < w) (hr : r < w) :
    (w * q + r) / w = q ∧ (w * q + r) % w = r := by
  constructor
  · rw [Nat.mul_add_div hw, Nat.div_eq_of_lt hr, Nat.add_zero]
  · rw [Nat.mul_add_mod, Nat.mod_eq_of_lt hr]

theorem cell_decomp {w : ℕ} (cur : ℕ) (hw : 0 < w) :
    cur = w * (cur / w) + cur % w ∧ cur % w < w :=
  ⟨(Nat.div_add_mod cur w).symm, Nat.mod_lt _ hw⟩

theorem up_coords {w cur : ℕ} (hw : 0 < w) (hc : 0 < cur / w) :
    (cur - w) / w = cur / w - 1 ∧ (cur - w) % w = cur % w ∧ cur - w + w = cur := by
  obtain ⟨hdm, hmod⟩ := cell_decomp cur hw
  have hmul : w * (cur / w - 1) + w = w * (cur / w) := by
    rw [← Nat.mul_succ]
    congr 1
    omega
  have hkey : cur - w = w * (cur / w - 1) + cur % w := by omega
  rw [hkey]
  obtain ⟨hd, hm⟩ := decomp_div (q := cur / w - 1) hw hmod
  refine ⟨hd, hm, ?_⟩
  omega

theorem down_coords {w : ℕ} (cur : ℕ) (hw : 0 < w) :
    (cur + w) / w = cur / w + 1 ∧ (cur + w) % w = cur % w ∧ cur + w - w = cur := by
  obtain ⟨hdm, hmod⟩ := cell_decomp cur hw
  have hmul : w * (cur / w + 1) = w * (cur / w) + w := Nat.mul_succ w _
  have hkey : cur + w = w * (cur / w + 1) + cur % w := by omega
  rw [hkey]
  obtain ⟨hd, hm⟩ := decomp_div (q := cur / w + 1) hw hmod
  exact ⟨hd, hm, by omega⟩

theorem left_coords {w cur : ℕ} (hw : 0 < w) (hc : 0 < cur % w) :
    (cur - 1) / w = cur / w ∧ (cur - 1) % w = cur % w - 1 ∧ cur - 1 + 1 = cur := by
  obtain ⟨hdm, hmod⟩ := cell_decomp cur hw
  have hkey : cur - 1 = w * (cur / w) + (cur % w - 1) := by omega
  rw [hkey]
  obtain ⟨hd, hm⟩ := decomp_div (q := cur / w) hw (by omega : cur % w - 1 < w)
  exact ⟨hd, hm, by omega⟩

theorem right_coords {w cur : ℕ} (hw : 0 < w) (hc : cur % w < w - 1) :
    (cur + 1) / w = cur / w ∧ (cur + 1) % w = cur % w + 1 ∧ cur + 1 - 1 = cur := by
  obtain ⟨hdm, hmod⟩ := cell_decomp cur hw
  have hkey : cur + 1 = w * (cur / w) + (cur % w + 1) := by omega
  rw [hkey]
  obtain ⟨hd, hm⟩ := decomp_div (q := cur / w) hw (by omega : cur % w + 1 < w)
  exact ⟨hd, hm, by omega⟩

theorem mem_nbrs {w h cur n : ℕ} :
    n ∈ nbrs w h cur ↔
      (0 < cur / w ∧ n = cur - w) ∨ (cur / w < h - 1 ∧ n = cur + w) ∨
      (0 < cur % w ∧ n = cur - 1) ∨ (cur % w < w - 1 ∧ n = cur + 1) := by
  unfold nbrs
  dsimp only
  split_ifs <;> simp [List.mem_append] <;> tauto

theorem pos_of_lt_mul {w h cur : ℕ} (hcur : cur < w * h) : 0 < w ∧ 0 < h := by
  constructor
  · rcases Nat.eq_zero_or_pos w with hw | hw
    · subst hw; simp at hcur
    · exact hw
  · rcases Nat.eq_zero_or_pos h with hh | hh
    · subst hh; simp at hcur
    · exact hh

theorem div_lt_of_lt_mul {w h cur : ℕ} (hcur : cur < w * h) : cur / w < h := by
  obtain ⟨hw, _⟩ := pos_of_lt_mul hcur
  exact (Nat.div_lt_iff_lt_mul hw).2 (by rw [Nat.mul_comm] at hcur; exact hcur)

theorem nbrs_lt {w h cur n : ℕ} (hcur : cur < w * h) (hn : n ∈ nbrs w h cur) :
    n < w * h := by
  obtain ⟨hw, hh⟩ := pos_of_lt_mul hcur
  obtain ⟨hdm, hmod⟩ := cell_decomp cur hw
  have hdivlt : cur / w < h := div_lt_of_lt_mul hcur
  rcases mem_nbrs.1 hn with ⟨hc, rfl⟩ | ⟨hc, rfl⟩ | ⟨hc, rfl⟩ | ⟨hc, rfl⟩
  · exact lt_of_le_of_lt (Nat.sub_le _ _) hcur
  · have hq : cur / w + 2 ≤ h := by omega
    have hle : w * (cur / w + 2) ≤ w * h := Nat.mul_le_mul_left w hq
    have hexp : w * (cur / w + 2) = w * (cur / w) + w + w := by ring
    omega
  · exact lt_of_le_of_lt (Nat.sub_le _ _) hcur
  · have hq : cur / w + 1 ≤ h := hdivlt
    have hle : w * (cur / w + 1) ≤ w * h := Nat.mul_le_mul_left w hq
    have hexp : w * (cur / w + 1) = w * (cur / w) + w := by ring
    omega

theorem nbrs_nodup (w h cur : ℕ) : (nbrs w h cur).Nodup := by
  unfold nbrs
  dsimp only
  by_cases h1 : 0 < cur / w <;> by_cases h2 : cur / w < h - 1 <;>
    by_cases h3 : 0 < cur % w <;> by_cases h4 : cur % w < w - 1 <;>
    simp only [h1, h2, h3, h4, if_true, if_false, List.cons_append,
      List.nil_append, List.append_nil, List.singleton_append, List.nodup_cons,
      List.mem_cons, List.mem_singleton, List.not_mem_nil, List.nodup_nil,
      or_false, not_or, and_true, true_and, List.nodup_singleton,
      not_false_eq_true]
  all_goals try obtain ⟨hw0, hwle⟩ := div_pos_facts h1
  all_goals try obtain ⟨hc0, hwne⟩ := mod_pos_facts h3
  all_goals first | trivial | omega

theorem nbrs_symm {w h cur n : ℕ} (hcur : cur < w * h) (hn : n ∈ nbrs w h cur) :
    cur ∈ nbrs w h n := by
  obtain ⟨hw, hh⟩ := pos_of_lt_mul hcur
  obtain ⟨hdm, hmod⟩ := cell_decomp cur hw
  have hdivlt : cur / w < h := div_lt_of_lt_mul hcur
  rcases mem_nbrs.1 hn with ⟨hc, rfl⟩ | ⟨hc, rfl⟩ | ⟨hc, rfl⟩ | ⟨hc, rfl⟩
  · obtain ⟨hd, hm, hadd⟩ := up_coords hw hc
    refine mem_nbrs.2 (Or.inr (Or.inl ⟨?_, hadd.symm⟩))
    rw [hd]
    omega
  · obtain ⟨hd, hm, hsub⟩ := down_coords cur hw
    refine mem_nbrs.2 (Or.inl ⟨?_, hsub.symm⟩)
    rw [hd]
    exact Nat.succ_pos _
  · obtain ⟨hd, hm, hadd⟩ := left_coords hw hc
    refine mem_nbrs.2 (Or.inr (Or.inr (Or.inr ⟨?_, hadd.symm⟩)))
    rw [hm]
    omega
  · obtain ⟨hd, hm, hsub⟩ := right_coords hw hc
    refine mem_nbrs.2 (Or.inr (Or.inr (Or.inl ⟨?_, hsub.symm⟩)))
    rw [hm]
    exact Nat.succ_pos _

/-! ### Reachability facts -/

theorem reach_lt {bin : ℕ → Bool} {w h cur x : ℕ} (hcur : cur < w * h)
    (hr : Reach bin w h cur x) : x < w * h := by
  induction hr with
  | refl => exact hcur
  | tail hab hbc ih => exact nbrs_lt ih hbc.1

theorem reach_dark {bin : ℕ → Bool} {w h i x : ℕ} (hbi : bin i = true)
    (hr : Reach bin w h i x) : bin x = true := by
  induction hr with
  | refl => exact hbi
  | tail hab hbc ih => exact hbc.2

theorem reach_symm {bin : ℕ → Bool} {w h i x : ℕ} (hi : i < w * h)
    (hbi : bin i = true) (hr : Reach bin w h i x) : Reach bin w h x i := by
  induction hr with
  | refl => exact Relation.ReflTransGen.refl
  | @tail b c hab hbc ih =>
    exact Relation.ReflTransGen.head
      ⟨nbrs_symm (reach_lt hi hab) hbc.1, reach_dark hbi hab⟩ ih

/-! ### Saturation facts for the reference flood fill -/

theorem subset_expandStep (bin : ℕ → Bool) (w h : ℕ) (S : Finset ℕ) :
    S ⊆ expandStep bin w h S :=
  Finset.subset_union_left

theorem subset_iterate_expand (bin : ℕ → Bool) (w h : ℕ) (S : Finset ℕ) (n : ℕ) :
    S ⊆ (expandStep bin w h)^[n] S := by
  induction n with
  | zero => simp
  | succ k ih =>
    rw [Function.iterate_succ_apply']
    exact ih.trans (subset_expandStep bin w h _)

theorem darkCells_subset_range (bin : ℕ → Bool) (w h : ℕ) :
    darkCells bin w h ⊆ Finset.range (w * h) := by
  unfold darkCells
  exact Finset.filter_subset _ _

theorem iterate_expand_subset_range (bin : ℕ → Bool) (w h : ℕ) {S : Finset ℕ}
    (hS : S ⊆ Finset.range (w * h)) (n : ℕ) :
    (expandStep bin w h)^[n] S ⊆ Finset.range (w * h) := by
  induction n with
  | zero => simpa
  | succ k ih =>
    rw [Function.iterate_succ_apply']
    unfold expandStep
    intro x hx
    rcases Finset.mem_union.1 hx with hx | hx
    · exact ih hx
    · exact darkCells_subset_range bin w h (Finset.filter_subset _ _ hx)

theorem expand_fix_exists (bin : ℕ → Bool) (w h : ℕ) {i : ℕ} (hi : i < w * h) :
    ∃ k ≤ w * h, expandStep bin w h ((expandStep bin w h)^[k] {i}) =
      (expandStep bin w h)^[k] {i} := by
  by_contra hno
  push_neg at hno
  have hgrow : ∀ k, k ≤ w * h →
      k + 1 ≤ ((expandStep bin w h)^[k] ({i} : Finset ℕ)).card := by
    intro k
    induction k with
    | zero =>
      intro _
      simp
    | succ m ih =>
      intro hm
      have h1 := ih (le_trans (Nat.le_succ m) hm)
      have hssub : (expandStep bin w h)^[m] ({i} : Finset ℕ) ⊂
          (expandStep bin w h)^[m + 1] ({i} : Finset ℕ) := by
        rw [Function.iterate_succ_apply']
        exact (subset_expandStep bin w h _).ssubset_of_ne
          (Ne.symm (hno m (le_trans (Nat.le_succ m) hm)))
      have h2 := Finset.card_lt_card hssub
      omega
  have hsing : ({i} : Finset ℕ) ⊆ Finset.range (w * h) := by
    simp [Finset.singleton_subset_iff, Finset.mem_range, hi]
  have hcard : ((expandStep bin w h)^[w * h] ({i} : Finset ℕ)).card ≤ w * h := by
    have hle := Finset.card_le_card (iterate_expand_subset_range bin w h hsing (w * h))
    simpa [Finset.card_range] using hle
  have := hgrow (w * h) le_rfl
  omega

theorem expandStep_reachSet (bin : ℕ → Bool) (w h : ℕ) {i : ℕ} (hi : i < w * h) :
    expandStep bin w h (reachSet bin w h i) = reachSet bin w h i := by
  obtain ⟨k, hk, hfix⟩ := expand_fix_exists bin w h hi
  have hiter : reachSet bin w h i = (expandStep bin w h)^[k] {i} := by
    unfold reachSet
    have hsplit : w * h = (w * h - k) + k := by omega
    rw [hsplit, Function.iterate_add_apply]
    exact Function.iterate_fixed hfix (w * h - k)
  rw [hiter]
  exact hfix

theorem reach_of_mem_reachSet {bin : ℕ → Bool} {w h i x : ℕ}
    (hx : x ∈ reachSet bin w h i) : Reach bin w h i x := by
  unfold reachSet at hx
  suffices hall : ∀ k, ∀ y ∈ (expandStep bin w h)^[k] ({i} : Finset ℕ),
      Reach bin w h i y from hall _ x hx
  intro k
  induction k with
  | zero =>
    intro y hy
    simp only [Function.iterate_zero, id, Finset.mem_singleton] at hy
    subst hy
    exact Relation.ReflTransGen.refl
  | succ m ih =>
    intro y hy
    rw [Function.iterate_succ_apply'] at hy
    unfold expandStep at hy
    rcases Finset.mem_union.1 hy with hy | hy
    · exact ih y hy
    · obtain ⟨hdark, z, hz, hyz⟩ := Finset.mem_filter.1 hy
      have hb : bin y = true := (Finset.mem_filter.1 hdark).2
      exact Relation.ReflTransGen.tail (ih z hz) ⟨hyz, hb⟩

theorem self_mem_reachSet (bin : ℕ → Bool) (w h i : ℕ) :
    i ∈ reachSet bin w h i :=
  subset_iterate_expand bin w h {i} (w * h) (Finset.mem_singleton_self i)

theorem mem_reachSet_of_reach {bin : ℕ → Bool} {w h i x : ℕ} (hi : i < w * h)
    (hr : Reach bin w h i x) : x ∈ reachSet bin w h i := by
  induction hr with
  | refl => exact self_mem_reachSet bin w h i
  | @tail b c hab hbc ih =>
    have hbr : b < w * h := reach_lt hi hab
    have hcr : c < w * h := nbrs_lt hbr hbc.1
    rw [← expandStep_reachSet bin w h hi]
    unfold expandStep
    refine Finset.mem_union_right _ (Finset.mem_filter.2 ⟨?_, ⟨b, ih, hbc.1⟩⟩)
    unfold darkCells
    exact Finset.mem_filter.2 ⟨Finset.mem_range.2 hcr, hbc.2⟩

theorem reachSet_subset_range {bin : ℕ → Bool} {w h i : ℕ} (hi : i < w * h) :
    reachSet bin w h i ⊆ Finset.range (w * h) :=
  iterate_expand_subset_range bin w h
    (by simp [Finset.singleton_subset_iff, Finset.mem_range, hi]) (w * h)

theorem reachSet_dark {bin : ℕ → Bool} {w h i x : ℕ} (hbi : bin i = true)
    (hx : x ∈ reachSet bin w h i) : bin x = true :=
  reach_dark hbi (reach_of_mem_reachSet hx)

theorem reachSet_closed {bin : ℕ → Bool} {w h i x n : ℕ} (hi : i < w * h)
    (hx : x ∈ reachSet bin w h i) (hn : n ∈ nbrs w h x) (hbn : bin n = true) :
    n ∈ reachSet bin w h i :=
  mem_reachSet_of_reach hi
    (Relation.ReflTransGen.tail (reach_of_mem_reachSet hx) ⟨hn, hbn⟩)

theorem reachSet_eq_of_mem {bin : ℕ → Bool} {w h i j : ℕ} (hi : i < w * h)
    (hbi : bin i = true) (hj : j ∈ reachSet bin w h i) :
    reachSet bin w h j = reachSet bin w h i := by
  have hij : Reach bin w h i j := reach_of_mem_reachSet hj
  have hji : Reach bin w h j i := reach_symm hi hbi hij
  have hjlt : j < w * h := reach_lt hi hij
  ext x
  constructor
  · intro hx
    exact mem_reachSet_of_reach hi
      (Relation.ReflTransGen.trans hij (reach_of_mem_reachSet hx))
  · intro hx
    exact mem_reachSet_of_reach hjlt
      (Relation.ReflTransGen.trans hji (reach_of_mem_reachSet hx))

theorem mem_refComponents {bin : ℕ → Bool} {w h : ℕ} {c : Finset ℕ} :
    c ∈ refComponents bin w h ↔
      ∃ i, i < w * h ∧ bin i = true ∧ reachSet bin w h i = c := by
  unfold refComponents darkCells
  constructor
  · intro hc
    obtain ⟨i, hi, rfl⟩ := Finset.mem_image.1 hc
    obtain ⟨hir, hib⟩ := Finset.mem_filter.1 hi
    exact ⟨i, Finset.mem_range.1 hir, hib, rfl⟩
  · rintro ⟨i, hir, hib, rfl⟩
    exact Finset.mem_image.2
      ⟨i, Finset.mem_filter.2 ⟨Finset.mem_range.2 hir, hib⟩, rfl⟩


/-! ### The explicit-stack flood fill computes exactly the dark component of
its seed. -/

theorem floodAux_spec (bin : ℕ → Bool) (w h : ℕ) :
    ∀ (fuel : ℕ) (stack : List ℕ) (vis : Finset ℕ) (size : ℕ),
      (∀ x ∈ stack, x < w * h) →
      (∀ x ∈ stack, bin x = true) →
      stack.Nodup →
      (∀ x ∈ stack, x ∈ vis) →
      vis ⊆ Finset.range (w * h) →
      stack.length + 5 * ((Finset.range (w * h)) \ vis).card ≤ fuel →
      vis ⊆ (floodAux bin w h fuel stack vis size).1 ∧
      (floodAux bin w h fuel stack vis size).1 ⊆ Finset.range (w * h) ∧
      (floodAux bin w h fuel stack vis size).2 =
        size + stack.length + ((floodAux bin w h fuel stack vis size).1 \ vis).card ∧
      (∀ x ∈ (floodAux bin w h fuel stack vis size).1,
        x ∈ vis ∨ ∃ s ∈ stack, Reach bin w h s x) ∧
      (∀ x ∈ (floodAux bin w h fuel stack vis size).1, x ∉ vis → bin x = true) ∧
      (∀ x ∈ (floodAux bin w h fuel stack vis size).1,
        (x ∈ vis ∧ x ∉ stack) ∨
        ∀ n ∈ nbrs w h x, bin n = true → n ∈ (floodAux bin w h fuel stack vis size).1) := by
  intro fuel
  induction fuel with
  | zero =>
    intro stack vis size hlt hdark hnd hsub hrange hfuel
    have hstack : stack = [] := by
      cases stack with
      | nil => rfl
      | cons a l =>
        simp only [List.length_cons] at hfuel
        omega
    subst hstack
    refine ⟨Finset.Subset.refl _, hrange, by simp [floodAux], ?_, ?_, ?_⟩
    · intro x hx
      exact Or.inl hx
    · intro x hx hx2
      exact absurd hx hx2
    · intro x hx
      exact Or.inl ⟨hx, by simp⟩
  | succ fuel ih =>
    intro stack vis size hlt hdark hnd hsub hrange hfuel
    cases stack with
    | nil =>
      refine ⟨Finset.Subset.refl _, hrange, by simp [floodAux], ?_, ?_, ?_⟩
      · intro x hx
        exact Or.inl hx
      · intro x hx hx2
        exact absurd hx hx2
      · intro x hx
        exact Or.inl ⟨hx, by simp⟩
    | cons cur stack =>
      have hcur : cur < w * h := hlt cur (List.mem_cons_self _ _)
      have hcurb : bin cur = true := hdark cur (List.mem_cons_self _ _)
      have hstep : floodAux bin w h (fuel + 1) (cur :: stack) vis size =
          floodAux bin w h fuel
            ((((nbrs w h cur).filter fun n => bin n && !(decide (n ∈ vis))).reverse)
              ++ stack)
            (vis ∪ ((nbrs w h cur).filter
              fun n => bin n && !(decide (n ∈ vis))).toFinset)
            (size + 1) := rfl
      set ns := (nbrs w h cur).filter fun n => bin n && !(decide (n ∈ vis)) with hnsdef
      have hns_mem : ∀ n ∈ ns, n ∈ nbrs w h cur ∧ bin n = true ∧ n ∉ vis := by
        intro n hn
        rw [hnsdef] at hn
        obtain ⟨h1, h2⟩ := List.mem_filter.1 hn
        rw [Bool.and_eq_true, Bool.not_eq_true', decide_eq_false_iff_not] at h2
        exact ⟨h1, h2.1, h2.2⟩
      have hns_of : ∀ n, n ∈ nbrs w h cur → bin n = true → n ∉ vis → n ∈ ns := by
        intro n h1 h2 h3
        rw [hnsdef]
        refine List.mem_filter.2 ⟨h1, ?_⟩
        rw [Bool.and_eq_true, Bool.not_eq_true', decide_eq_false_iff_not]
        exact ⟨h2, h3⟩
      have hns_lt : ∀ n ∈ ns, n < w * h := fun n hn => nbrs_lt hcur (hns_mem n hn).1
      have hns_nd : ns.Nodup := by
        rw [hnsdef]
        exact (nbrs_nodup w h cur).filter _
      have hstack_sub : ∀ x ∈ stack, x ∈ vis :=
        fun x hx => hsub x (List.mem_cons_of_mem _ hx)
      have hnd2 : stack.Nodup := (List.nodup_cons.1 hnd).2
      have harg1 : ∀ x ∈ ns.reverse ++ stack, x < w * h := by
        intro x hx
        rcases List.mem_append.1 hx with hx | hx
        · exact hns_lt x (List.mem_reverse.1 hx)
        · exact hlt x (List.mem_cons_of_mem _ hx)
      have harg2 : ∀ x ∈ ns.reverse ++ stack, bin x = true := by
        intro x hx
        rcases List.mem_append.1 hx with hx | hx
        · exact (hns_mem x (List.mem_reverse.1 hx)).2.1
        · exact hdark x (List.mem_cons_of_mem _ hx)
      have harg3 : (ns.reverse ++ stack).Nodup := by
        refine List.Nodup.append (List.nodup_reverse.2 hns_nd) hnd2 ?_
        intro x hx1 hx2
        exact (hns_mem x (List.mem_reverse.1 hx1)).2.2 (hstack_sub x hx2)
      have harg4 : ∀ x ∈ ns.reverse ++ stack, x ∈ vis ∪ ns.toFinset := by
        intro x hx
        rcases List.mem_append.1 hx with hx | hx
        · exact Finset.mem_union_right _ (List.mem_toFinset.2 (List.mem_reverse.1 hx))
        · exact Finset.mem_union_left _ (hstack_sub x hx)
      have harg5 : vis ∪ ns.toFinset ⊆ Finset.range (w * h) := by
        intro x hx
        rcases Finset.mem_union.1 hx with hx | hx
        · exact hrange hx
        · exact Finset.mem_range.2 (hns_lt x (List.mem_toFinset.1 hx))
      have hnsF_sub : ns.toFinset ⊆ Finset.range (w * h) \ vis := by
        intro x hx
        obtain ⟨_, _, hnv⟩ := hns_mem x (List.mem_toFinset.1 hx)
        exact Finset.mem_sdiff.2
          ⟨Finset.mem_range.2 (hns_lt x (List.mem_toFinset.1 hx)), hnv⟩
      have hnsF_card : ns.toFinset.card = ns.length :=
        List.toFinset_card_of_nodup hns_nd
      have hsdiff_eq : Finset.range (w * h) \ (vis ∪ ns.toFinset) =
          (Finset.range (w * h) \ vis) \ ns.toFinset := by
        ext x
        simp only [Finset.mem_sdiff, Finset.mem_union]
        tauto
      have hcard_new : (Finset.range (w * h) \ (vis ∪ ns.toFinset)).card =
          (Finset.range (w * h) \ vis).card - ns.length := by
        rw [hsdiff_eq, Finset.card_sdiff hnsF_sub, hnsF_card]
      have hle_card : ns.length ≤ (Finset.range (w * h) \ vis).card := by
        rw [← hnsF_card]
        exact Finset.card_le_card hnsF_sub
      have harg6 : (ns.reverse ++ stack).length +
          5 * (Finset.range (w * h) \ (vis ∪ ns.toFinset)).card ≤ fuel := by
        have hlen : (ns.reverse ++ stack).length = ns.length + stack.length := by
          simp
        simp only [List.length_cons] at hfuel
        omega
      obtain ⟨c1, c2, c3, c4, c5, c6⟩ := ih (ns.reverse ++ stack)
        (vis ∪ ns.toFinset) (size + 1) harg1 harg2 harg3 harg4 harg5 harg6
      rw [hstep]
      have hvis_sub : vis ⊆ (floodAux bin w h fuel (ns.reverse ++ stack)
          (vis ∪ ns.toFinset) (size + 1)).1 :=
        Finset.subset_union_left.trans c1
      have hnsF_r : ns.toFinset ⊆ (floodAux bin w h fuel (ns.reverse ++ stack)
          (vis ∪ ns.toFinset) (size + 1)).1 :=
        Finset.subset_union_right.trans c1
      refine ⟨hvis_sub, c2, ?_, ?_, ?_, ?_⟩
      · -- size bookkeeping
        have hsub2 : ns.toFinset ⊆ (floodAux bin w h fuel (ns.reverse ++ stack)
            (vis ∪ ns.toFinset) (size + 1)).1 \ vis := by
          intro x hx
          exact Finset.mem_sdiff.2
            ⟨hnsF_r hx, (hns_mem x (List.mem_toFinset.1 hx)).2.2⟩
        have hsd : ((floodAux bin w h fuel (ns.reverse ++ stack)
            (vis ∪ ns.toFinset) (size + 1)).1 \ vis) \ ns.toFinset =
            (floodAux bin w h fuel (ns.reverse ++ stack)
              (vis ∪ ns.toFinset) (size + 1)).1 \ (vis ∪ ns.toFinset) := by
          ext x
          simp only [Finset.mem_sdiff, Finset.mem_union]
          tauto
        have hc2 := Finset.card_sdiff hsub2
        rw [hsd] at hc2
        have hle2 := Finset.card_le_card hsub2
        have hlen : (ns.reverse ++ stack).length = ns.length + stack.length := by
          simp
        simp only [List.length_cons]
        omega
      · -- soundness
        intro x hx
        rcases c4 x hx with hx1 | ⟨s, hs, hrs⟩
        · rcases Finset.mem_union.1 hx1 with hx1 | hx1
          · exact Or.inl hx1
          · obtain ⟨hm, hb, _⟩ := hns_mem x (List.mem_toFinset.1 hx1)
            exact Or.inr ⟨cur, List.mem_cons_self _ _,
              Relation.ReflTransGen.single ⟨hm, hb⟩⟩
        · rcases List.mem_append.1 hs with hs | hs
          · obtain ⟨hm, hb, _⟩ := hns_mem s (List.mem_reverse.1 hs)
            exact Or.inr ⟨cur, List.mem_cons_self _ _,
              Relation.ReflTransGen.trans
                (Relation.ReflTransGen.single ⟨hm, hb⟩) hrs⟩
          · exact Or.inr ⟨s, List.mem_cons_of_mem _ hs, hrs⟩
      · -- darkness
        intro x hx hxv
        by_cases hxn : x ∈ ns.toFinset
        · exact (hns_mem x (List.mem_toFinset.1 hxn)).2.1
        · exact c5 x hx fun hc => (by
            rcases Finset.mem_union.1 hc with hc | hc
            · exact hxv hc
            · exact hxn hc)
      · -- closedness
        intro x hx
        rcases c6 x hx with ⟨hxv, hxs⟩ | hcl
        · have hxns : x ∉ ns := fun hc =>
            hxs (List.mem_append.2 (Or.inl (List.mem_reverse.2 hc)))
          have hxstack : x ∉ stack := fun hc =>
            hxs (List.mem_append.2 (Or.inr hc))
          have hxvis : x ∈ vis := by
            rcases Finset.mem_union.1 hxv with hc | hc
            · exact hc
            · exact absurd (List.mem_toFinset.1 hc) hxns
          by_cases hxc : x = cur
          · subst hxc
            refine Or.inr ?_
            intro n hn hb
            by_cases hnv : n ∈ vis
            · exact hvis_sub hnv
            · exact hnsF_r (List.mem_toFinset.2 (hns_of n hn hb hnv))
          · refine Or.inl ⟨hxvis, ?_⟩
            intro hc
            rcases List.mem_cons.1 hc with hc | hc
            · exact hxc hc
            · exact hxstack hc
        · exact Or.inr hcl

theorem reach_not_mem_closed {bin : ℕ → Bool} {w h : ℕ} {visited : Finset ℕ}
    {i y : ℕ} (hi : i < w * h) (hbi : bin i = true) (hiv : i ∉ visited)
    (hclosed : ∀ x ∈ visited, ∀ n ∈ nbrs w h x, bin n = true → n ∈ visited)
    (hr : Reach bin w h i y) : y ∉ visited := by
  induction hr with
  | refl => exact hiv
  | @tail b c hab hbc ih =>
    intro hcv
    have hblt : b < w * h := reach_lt hi hab
    have hbd : bin b = true := reach_dark hbi hab
    have hbm : b ∈ nbrs w h c := nbrs_symm hblt hbc.1
    exact ih (hclosed c hcv b hbm hbd)

theorem flood_component (bin : ℕ → Bool) (w h : ℕ) {i : ℕ} {visited : Finset ℕ}
    (hi : i < w * h) (hbi : bin i = true) (hiv : i ∉ visited)
    (hvr : visited ⊆ Finset.range (w * h))
    (hclosed : ∀ x ∈ visited, ∀ n ∈ nbrs w h x, bin n = true → n ∈ visited) :
    (floodAux bin w h (5 * (w * h) + 1) [i] (insert i visited) 0).1 =
      visited ∪ reachSet bin w h i ∧
    (floodAux bin w h (5 * (w * h) + 1) [i] (insert i visited) 0).2 =
      (reachSet bin w h i).card := by
  have hins_sub : insert i visited ⊆ Finset.range (w * h) := by
    intro x hx
    rcases Finset.mem_insert.1 hx with rfl | hx
    · exact Finset.mem_range.2 hi
    · exact hvr hx
  have hfuel : [i].length +
      5 * ((Finset.range (w * h)) \ insert i visited).card ≤ 5 * (w * h) + 1 := by
    have hcard : (Finset.range (w * h) \ insert i visited).card ≤ w * h := by
      have hle := Finset.card_le_card
        (Finset.sdiff_subset (s := Finset.range (w * h)) (t := insert i visited))
      simpa [Finset.card_range] using hle
    simp only [List.length_singleton]
    omega
  obtain ⟨c1, c2, c3, c4, c5, c6⟩ := floodAux_spec bin w h (5 * (w * h) + 1) [i]
    (insert i visited) 0
    (by intro x hx; rw [List.mem_singleton] at hx; rw [hx]; exact hi)
    (by intro x hx; rw [List.mem_singleton] at hx; rw [hx]; exact hbi)
    (List.nodup_singleton i)
    (by intro x hx; rw [List.mem_singleton] at hx; rw [hx]
        exact Finset.mem_insert_self i visited)
    hins_sub hfuel
  have hdisj : ∀ y, Reach bin w h i y → y ∉ visited :=
    fun y hy => reach_not_mem_closed hi hbi hiv hclosed hy
  have hmain : (floodAux bin w h (5 * (w * h) + 1) [i] (insert i visited) 0).1 =
      visited ∪ reachSet bin w h i := by
    apply Finset.Subset.antisymm
    · intro x hx
      rcases c4 x hx with hx1 | ⟨s, hs, hrs⟩
      · rcases Finset.mem_insert.1 hx1 with rfl | hx1
        · exact Finset.mem_union_right _ (self_mem_reachSet bin w h x)
        · exact Finset.mem_union_left _ hx1
      · have hsi : s = i := by simpa using hs
        subst hsi
        exact Finset.mem_union_right _ (mem_reachSet_of_reach hi hrs)
    · intro x hxu
      rcases Finset.mem_union.1 hxu with hx | hx
      · exact c1 (Finset.mem_insert_of_mem hx)
      · have hrx : Reach bin w h i x := reach_of_mem_reachSet hx
        clear hx hxu
        induction hrx with
        | refl => exact c1 (Finset.mem_insert_self _ _)
        | @tail b c hab hbc ih2 =>
          have hbnv : b ∉ visited := hdisj b hab
          rcases c6 b ih2 with ⟨hbv, hbs⟩ | hcl
          · rcases Finset.mem_insert.1 hbv with rfl | hbv2
            · exact absurd (List.mem_singleton_self _) hbs
            · exact absurd hbv2 hbnv
          · exact hcl c hbc.1 hbc.2
  refine ⟨hmain, ?_⟩
  have hicard : i ∈ reachSet bin w h i := self_mem_reachSet bin w h i
  have hset : (floodAux bin w h (5 * (w * h) + 1) [i] (insert i visited) 0).1 \
      insert i visited = reachSet bin w h i \ {i} := by
    rw [hmain]
    ext x
    simp only [Finset.mem_sdiff, Finset.mem_union, Finset.mem_insert,
      Finset.mem_singleton]
    constructor
    · rintro ⟨hx1 | hx1, hx2⟩
      · exact absurd hx1 fun hc => hx2 (Or.inr hc)
      · exact ⟨hx1, fun hc => hx2 (Or.inl hc)⟩
    · rintro ⟨hx1, hx2⟩
      refine ⟨Or.inr hx1, ?_⟩
      rintro (rfl | hc)
      · exact hx2 rfl
      · exact hdisj x (reach_of_mem_reachSet hx1) hc
  have hpos : 0 < (reachSet bin w h i).card := Finset.card_pos.2 ⟨i, hicard⟩
  have hsdc : (reachSet bin w h i \ {i}).card = (reachSet bin w h i).card - 1 := by
    rw [Finset.card_sdiff (by simpa using hicard), Finset.card_singleton]
  rw [c3, hset, hsdc]
  simp only [List.length_singleton]
  omega

/-! ### The scan loop enumerates exactly the accepted components. -/

theorem scanLoop_spec (bin : ℕ → Bool) (w h : ℕ) :
    ∀ (order : List ℕ) (visited : Finset ℕ) (comps : List ℕ)
      (D : Finset (Finset ℕ)),
      (∀ x ∈ order, x < w * h) →
      D ⊆ refComponents bin w h →
      (∀ x, x ∈ visited ↔ ∃ c ∈ D, x ∈ c) →
      (∀ x, x < w * h → bin x = true → x ∉ visited → x ∈ order) →
      ((scanLoop bin w h order visited comps : List ℕ) : Multiset ℕ) =
        (comps : Multiset ℕ) +
          (((refComponents bin w h) \ D).filter fun c => 10 ≤ c.card).val.map
            Finset.card := by
  intro order
  induction order with
  | nil =>
    intro visited comps D hord hD hvis hcov
    have hsub : refComponents bin w h ⊆ D := by
      intro c hc
      obtain ⟨i, hilt, hib, rfl⟩ := mem_refComponents.1 hc
      have hiv : i ∈ visited := by
        by_contra hnv
        exact absurd (hcov i hilt hib hnv) (List.not_mem_nil i)
      obtain ⟨c2, hc2D, hic2⟩ := (hvis i).1 hiv
      obtain ⟨j, hjlt, hjb, rfl⟩ := mem_refComponents.1 (hD hc2D)
      rw [reachSet_eq_of_mem hjlt hjb hic2]
      exact hc2D
    have hempty : refComponents bin w h \ D = ∅ :=
      Finset.sdiff_eq_empty_iff_subset.2 hsub
    simp [scanLoop, hempty]
  | cons i rest ihord =>
    intro visited comps D hord hD hvis hcov
    have hilt : i < w * h := hord i (List.mem_cons_self _ _)
    have hvr : visited ⊆ Finset.range (w * h) := by
      intro x hx
      obtain ⟨c, hcD, hxc⟩ := (hvis x).1 hx
      obtain ⟨j, hjlt, hjb, rfl⟩ := mem_refComponents.1 (hD hcD)
      exact reachSet_subset_range hjlt hxc
    have hclosed : ∀ x ∈ visited, ∀ n ∈ nbrs w h x, bin n = true → n ∈ visited := by
      intro x hx n hn hbn
      obtain ⟨c, hcD, hxc⟩ := (hvis x).1 hx
      obtain ⟨j, hjlt, hjb, rfl⟩ := mem_refComponents.1 (hD hcD)
      exact (hvis n).2 ⟨_, hcD, reachSet_closed hjlt hxc hn hbn⟩
    have hord2 : ∀ x ∈ rest, x < w * h :=
      fun x hx => hord x (List.mem_cons_of_mem _ hx)
    have hstep : scanLoop bin w h (i :: rest) visited comps =
        if bin i = true ∧ i ∉ visited then
          scanLoop bin w h rest
            (floodAux bin w h (5 * (w * h) + 1) [i] (insert i visited) 0).1
            (if 10 ≤ (floodAux bin w h (5 * (w * h) + 1) [i]
                (insert i visited) 0).2 then
              comps ++ [(floodAux bin w h (5 * (w * h) + 1) [i]
                (insert i visited) 0).2]
            else comps)
        else scanLoop bin w h rest visited comps := rfl
    by_cases hguard : bin i = true ∧ i ∉ visited
    · obtain ⟨hbi, hiv⟩ := hguard
      obtain ⟨hflood1, hflood2⟩ := flood_component bin w h hilt hbi hiv hvr hclosed
      rw [hstep, if_pos ⟨hbi, hiv⟩, hflood1, hflood2]
      have hRiD : reachSet bin w h i ∉ D := by
        intro hc
        exact hiv ((hvis i).2 ⟨_, hc, self_mem_reachSet bin w h i⟩)
      have hRiRef : reachSet bin w h i ∈ refComponents bin w h :=
        mem_refComponents.2 ⟨i, hilt, hbi, rfl⟩
      have hD2 : insert (reachSet bin w h i) D ⊆ refComponents bin w h := by
        intro c hc
        rcases Finset.mem_insert.1 hc with rfl | hc
        · exact hRiRef
        · exact hD hc
      have hvis2 : ∀ x, x ∈ visited ∪ reachSet bin w h i ↔
          ∃ c ∈ insert (reachSet bin w h i) D, x ∈ c := by
        intro x
        constructor
        · intro hx
          rcases Finset.mem_union.1 hx with hx | hx
          · obtain ⟨c, hcD, hxc⟩ := (hvis x).1 hx
            exact ⟨c, Finset.mem_insert_of_mem hcD, hxc⟩
          · exact ⟨_, Finset.mem_insert_self _ _, hx⟩
        · rintro ⟨c, hc, hxc⟩
          rcases Finset.mem_insert.1 hc with rfl | hc
          · exact Finset.mem_union_right _ hxc
          · exact Finset.mem_union_left _ ((hvis x).2 ⟨c, hc, hxc⟩)
      have hcov2 : ∀ x, x < w * h → bin x = true →
          x ∉ visited ∪ reachSet bin w h i → x ∈ rest := by
        intro x hxlt hxb hxv
        have hx1 : x ∉ visited := fun hc => hxv (Finset.mem_union_left _ hc)
        rcases List.mem_cons.1 (hcov x hxlt hxb hx1) with rfl | hx
        · exact absurd (Finset.mem_union_right _ (self_mem_reachSet bin w h x)) hxv
        · exact hx
      rw [ihord (visited ∪ reachSet bin w h i) _ (insert (reachSet bin w h i) D)
        hord2 hD2 hvis2 hcov2]
      have hsd : refComponents bin w h \ insert (reachSet bin w h i) D =
          (refComponents bin w h \ D).erase (reachSet bin w h i) := by
        ext c
        simp only [Finset.mem_sdiff, Finset.mem_insert, Finset.mem_erase]
        tauto
      have hmemsd : reachSet bin w h i ∈ refComponents bin w h \ D :=
        Finset.mem_sdiff.2 ⟨hRiRef, hRiD⟩
      have hA : refComponents bin w h \ D =
          insert (reachSet bin w h i)
            ((refComponents bin w h \ D).erase (reachSet bin w h i)) :=
        (Finset.insert_erase hmemsd).symm
      rw [hsd]
      nth_rewrite 2 [hA]
      rw [Finset.filter_insert]
      by_cases hac : 10 ≤ (reachSet bin w h i).card
      · rw [if_pos hac, if_pos hac]
        have hnm2 : reachSet bin w h i ∉
            ((refComponents bin w h \ D).erase (reachSet bin w h i)).filter
              fun c => 10 ≤ c.card :=
          fun hc => Finset.not_mem_erase _ _ (Finset.mem_of_mem_filter _ hc)
        rw [Finset.insert_val_of_not_mem hnm2, Multiset.map_cons]
        rw [← Multiset.coe_add, Multiset.coe_singleton, add_assoc,
          Multiset.singleton_add]
      · rw [if_neg hac, if_neg hac]
    · rw [hstep, if_neg hguard]
      have hcov2 : ∀ x, x < w * h → bin x = true → x ∉ visited → x ∈ rest := by
        intro x hxlt hxb hxv
        rcases List.mem_cons.1 (hcov x hxlt hxb hxv) with rfl | hx
        · exact absurd ⟨hxb, hxv⟩ hguard
        · exact hx
      exact ihord visited comps D hord2 hD hvis hcov2

theorem rasterOrder_eq_range (w : ℕ) : ∀ h, rasterOrder w h = List.range (w * h) := by
  intro h
  induction h with
  | zero => simp [rasterOrder]
  | succ k ih =>
    unfold rasterOrder at ih ⊢
    rw [List.range_succ, List.flatMap_append, ih, List.flatMap_singleton]
    rw [Nat.mul_succ, List.range_add]
    congr 1
    apply List.map_congr_left
    intro x _
    rw [Nat.mul_comm]

/-- C1: for every binary mask, the Segmenter blob count equals the number of
maximal 4-connected dark components of size at least 10 as computed by the
order-free reference flood fill — for any permutation of the scan order, so in
particular for the raster scan; the multiset of accepted sizes matches as well,
`blobSizes` is the first 50 accepted component sizes in raster order, and the
truncation never changes `blobCount` (which is the length of the untruncated
list). -/
theorem C1_segmenter (bin : ℕ → Bool) (w h : ℕ) (order : List ℕ)
    (hord : order.Perm (List.range (w * h))) :
    ((segmentComponents bin w h order : List ℕ) : Multiset ℕ) =
      acceptedSizes bin w h ∧
    (segmentComponents bin w h order).length = refBlobCount bin w h ∧
    blobCount bin w h = refBlobCount bin w h ∧
    blobSizes bin w h = (segmentComponents bin w h (rasterOrder w h)).take 50 ∧
    blobCount bin w h = (segmentComponents bin w h (rasterOrder w h)).length := by
  have hmain : ∀ ord : List ℕ, ord.Perm (List.range (w * h)) →
      ((segmentComponents bin w h ord : List ℕ) : Multiset ℕ) =
        acceptedSizes bin w h := by
    intro ord hp
    have hlt : ∀ x ∈ ord, x < w * h := fun x hx =>
      List.mem_range.1 (hp.mem_iff.1 hx)
    have hcov : ∀ x, x < w * h → bin x = true → x ∉ (∅ : Finset ℕ) → x ∈ ord :=
      fun x hxlt _ _ => hp.mem_iff.2 (List.mem_range.2 hxlt)
    have hspec := scanLoop_spec bin w h ord ∅ [] ∅ hlt (Finset.empty_subset _)
      (by intro x; simp) hcov
    unfold segmentComponents
    rw [hspec]
    simp [acceptedSizes]
  have hlen : ∀ ord : List ℕ, ord.Perm (List.range (w * h)) →
      (segmentComponents bin w h ord).length = refBlobCount bin w h := by
    intro ord hp
    have hcard := congrArg Multiset.card (hmain ord hp)
    rwa [Multiset.coe_card, acceptedSizes, Multiset.card_map] at hcard
  have hraster : (rasterOrder w h).Perm (List.range (w * h)) := by
    rw [rasterOrder_eq_range]
  exact ⟨hmain order hord, hlen order hord, hlen (rasterOrder w h) hraster,
    rfl, rfl⟩

/-- Witness for C1 at a concrete all-dark 4×3 mask scanned in raster order:
one 12-pixel component. -/
theorem C1_segmenter_witness :
    (List.range (4 * 3)).Perm (List.range (4 * 3)) ∧
    (((segmentComponents (fun i => decide (i < 12)) 4 3 (List.range (4 * 3)) :
          List ℕ) : Multiset ℕ) = acceptedSizes (fun i => decide (i < 12)) 4 3 ∧
     (segmentComponents (fun i => decide (i < 12)) 4 3
        (List.range (4 * 3))).length = refBlobCount (fun i => decide (i < 12)) 4 3 ∧
     blobCount (fun i => decide (i < 12)) 4 3 =
        refBlobCount (fun i => decide (i < 12)) 4 3 ∧
     blobSizes (fun i => decide (i < 12)) 4 3 =
        (segmentComponents (fun i => decide (i < 12)) 4 3 (rasterOrder 4 3)).take 50 ∧
     blobCount (fun i => decide (i < 12)) 4 3 =
        (segmentComponents (fun i => decide (i < 12)) 4 3
          (rasterOrder 4 3)).length) :=
  ⟨List.Perm.refl _, C1_segmenter (fun i => decide (i < 12)) 4 3
    (List.range (4 * 3)) (List.Perm.refl _)⟩

end EcoSens
